import Mathlib

/-!
Verification development for the maker-framework-extension repository.

This file gives a shallow embedding of the core logic of the repository
(red-flag filtering, consensus voting, HITL veto, task tree, decomposition
and orchestration) as executable Lean definitions, translated from the
TypeScript source, together with theorems settling the frozen claims.

Strings are modelled as `List Char` (called `Str` below); JavaScript
numbers that are used as integer counters are modelled as `Nat`.
-/

namespace Maker

/-- Strings of the embedded program; JavaScript strings are sequences of
characters, modelled as `List Char`. -/
abbrev Str := List Char

/-- The apostrophe character (code point 39). -/
def apos : Char := Char.ofNat 39

/-- The backtick character (code point 96), used in markdown code fences. -/
def btick : Char := Char.ofNat 96

/-- The opening curly brace character (code point 123). -/
def obrace : Char := Char.ofNat 123

/-- The closing curly brace character (code point 125). -/
def cbrace : Char := Char.ofNat 125

/-- Whitespace as recognised by the JavaScript `trim`/`\s` on the ASCII
range (space, tab, line feed, carriage return, vertical tab, form feed).
The source only ever deals with these whitespace characters. -/
def isJsSpace (c : Char) : Bool :=
  c == ' ' || c == '\t' || c == '\n' || c == '\r' ||
  c == Char.ofNat 11 || c == Char.ofNat 12

/-- Model of `String.prototype.trim`: drop leading and trailing whitespace. -/
def trimStr (s : Str) : Str :=
  ((s.dropWhile isJsSpace).reverse.dropWhile isJsSpace).reverse

/-- Lower-casing used to model the case-insensitive `/i` regex flag
(all patterns in the source are ASCII). -/
def lowerStr (s : Str) : Str := s.map Char.toLower

/-- Containment of `pat` as a contiguous subsequence of `s`. -/
def containsSeq (pat : Str) (s : Str) : Bool :=
  s.tails.any (fun t => pat.isPrefixOf t)

/-- Case-insensitive containment test: models `/pat/i.test(s)` for a
literal pattern `pat` (given here already lower-cased). -/
def containsCI (pat : Str) (s : Str) : Bool :=
  containsSeq pat (lowerStr s)

/-- Case-insensitive prefix test: models `/^pat/i.test(s)` for a literal
pattern (given lower-cased). -/
def startsWithCI (pat : Str) (s : Str) : Bool :=
  pat.isPrefixOf (lowerStr s)

/-- Severity levels of `RedFlagSeverity` from `src/types/maker.ts`
(values observed in `red-flagging.ts`: low, medium, high, critical). -/
inductive RedFlagSeverity where
  | low
  | medium
  | high
  | critical
deriving DecidableEq, Repr

/-- Result record of `checkRedFlags` (`IRedFlagResult`); `none` models a
field left `undefined` by the source. -/
structure IRedFlagResult where
  isRedFlagged : Bool
  severity : RedFlagSeverity
  reason : Option String
  suggestions : Option (List String)
deriving DecidableEq, Repr

/-- The forbidden phrase patterns of Rule 2 of `checkRedFlags`, paired with
their reasons, in source order.  Patterns are stored lower-cased; the
apostrophes of the source literals are built with `apos`. -/
def forbiddenPhrases : List (Str × String) :=
  [ ("i don".data ++ apos :: "t know".data, "Agent expressed uncertainty."),
    ("as an ai".data, "Agent used generic AI disclaimer."),
    ("i".data ++ apos :: "m sorry, but".data, "Agent refused to perform the task."),
    ("cannot fulfill this request".data, "Agent refused to perform the task."),
    ("unable to process".data, "Agent reported inability to process.") ]

/-- The code-indicative keywords of Rule 3 of `checkRedFlags`; the source
regex requires each keyword to be followed by a whitespace character. -/
def codeKeywords : List Str :=
  [ "function".data, "class".data, "import".data, "const".data,
    "let".data, "var".data, "def".data, "package".data, "public".data,
    "private".data ]

/-- Tests whether `kw` occurs in `s` immediately followed by a whitespace
character, i.e. models the regex fragment `kw\s+` as a containment test. -/
def keywordThenSpace (kw : Str) (s : Str) : Bool :=
  s.tails.any (fun t =>
    kw.isPrefixOf t &&
    (match t.drop kw.length with
     | c :: _ => isJsSpace c
     | [] => false))

/-- Rule 3 keyword test of `checkRedFlags`
(`/function\s+|class\s+|...|private\s+/i`). -/
def hasCodeKeywords (s : Str) : Bool :=
  codeKeywords.any (fun kw => keywordThenSpace kw (lowerStr s))

/-- Rule 3 code-fence test of `checkRedFlags`: the output contains three
consecutive backticks. -/
def hasCodeBlocks (s : Str) : Bool :=
  containsSeq [btick, btick, btick] s

/-- Model of `checkRedFlags` from `src/utils/red-flagging.ts`.  The source
trims the output, then applies Rule 1 (length), Rule 2 (forbidden
phrases), records — but does not return on — Rule 3 (code keywords
without code blocks), returns on Rule 4 (explicit error markers) and on
Rule 5 (repetition), and otherwise returns the record accumulated by
Rule 3. -/
def checkRedFlags (output : Str) : IRedFlagResult :=
  let trimmedOutput := trimStr output
  if trimmedOutput.length < 10 then
    { isRedFlagged := true, severity := .high,
      reason := some ("Output is too short to be a valid solution."),
      suggestions := some [("Provide a more detailed explanation or implementation.")] }
  else
    match forbiddenPhrases.find? (fun p => containsSeq p.1 (lowerStr trimmedOutput)) with
    | some p =>
      { isRedFlagged := true, severity := .medium,
        reason := some p.2,
        suggestions := some [("Ensure the agent provides a direct answer without disclaimers.")] }
    | none =>
      let rule3 := hasCodeKeywords trimmedOutput && !hasCodeBlocks trimmedOutput
      if startsWithCI ("error:".data) trimmedOutput
          || containsCI ("exception:".data) trimmedOutput
          || containsCI ("traceback".data) trimmedOutput then
        { isRedFlagged := true, severity := .critical,
          reason := some ("Output contains explicit error or exception messages."),
          suggestions := some [("Debug the underlying issue causing the error.")] }
      else
        let lines := trimmedOutput.splitOn '\n'
        if lines.length > 10 && 2 * (lines.map trimStr).dedup.length < lines.length then
          { isRedFlagged := true, severity := .medium,
            reason := some ("Output contains excessive repetition."),
            suggestions := some [("Check for infinite loops or repetitive generation patterns.")] }
        else if rule3 then
          { isRedFlagged := true, severity := .low,
            reason := some ("Output contains code keywords but lacks markdown code blocks."),
            suggestions := some [("Wrap code snippets in markdown code blocks for better readability.")] }
        else
          { isRedFlagged := false, severity := .low, reason := none, suggestions := none }

/-- Session status of a Jules worker session (`IJulesTaskResult.status`). -/
inductive SessionStatus where
  | started
  | completed
  | failed
deriving DecidableEq, Repr

/-- Result of polling one worker session (`IJulesTaskResult`); `output none`
models both a missing (`undefined`) and — together with the emptiness test
in `processResult` — a falsy output. -/
structure IJulesTaskResult where
  sessionId : String
  status : SessionStatus
  output : Option Str
deriving DecidableEq, Repr

/-- Mutable state of `VotingAgent.runVotingRound`: the `candidates` map
(content to index, kept as an association list in insertion order), the
`candidateList` (index to content), the `votes` record (whose keys are
exactly `0 .. votes.length - 1`, so it is kept as a list indexed by
candidate index) and the total vote counter. -/
structure VState where
  candidates : List (Str × Nat)
  candidateList : List Str
  votes : List Nat
  totalVotes : Nat
deriving DecidableEq, Repr

/-- The initial voting state. -/
def emptyVState : VState := ⟨[], [], [], 0⟩

/-- Casting one vote for candidate `index` (`votes[index]++; totalVotes++`). -/
def castVote (st : VState) (index : Nat) : VState :=
  { st with votes := st.votes.set index (st.votes.getD index 0 + 1),
            totalVotes := st.totalVotes + 1 }

/-- Processing of one polled result inside the round loop of
`runVotingRound`: failed or output-less sessions are skipped, red-flagged
outputs are discarded, otherwise the trimmed output is registered as a
candidate (if new) and receives one vote. -/
def processResult (st : VState) (r : IJulesTaskResult) : VState :=
  match r.status, r.output with
  | .completed, some out =>
    if out.isEmpty then st
    else if (checkRedFlags out).isRedFlagged then st
    else
      let content := trimStr out
      match st.candidates.lookup content with
      | some index => castVote st index
      | none =>
        let index := st.candidateList.length
        let st' := { st with candidates := st.candidates ++ [(content, index)],
                             candidateList := st.candidateList ++ [content],
                             votes := st.votes ++ [0] }
        castVote st' index
  | _, _ => st

/-- Stable insertion of index `i` into a descending-sorted index list
whose elements all come after `i` in the original order: `i` is placed
before the first element whose vote count is not strictly greater, so
ties are resolved in favour of the earlier (original-order) index. -/
def insertRanked (votes : List Nat) (i : Nat) : List Nat → List Nat
  | [] => [i]
  | y :: ys =>
    if votes.getD i 0 < votes.getD y 0 then y :: insertRanked votes i ys
    else i :: y :: ys

/-- Stable sort of an index list by vote count descending. -/
def rankSort (votes : List Nat) : List Nat → List Nat
  | [] => []
  | i :: is => insertRanked votes i (rankSort votes is)

/-- The sorted candidate indices computed after each round:
`Object.keys(votes).map(Number)` enumerates the integer keys
`0 .. votes.length - 1` in ascending order, and `.sort((a, b) =>
votes[b] - votes[a])` sorts them by vote count descending; ECMAScript
`Array.prototype.sort` with a consistent comparator is stable, which
determines its output uniquely (descending vote counts, ties in
ascending index order), and `rankSort` computes exactly that list
(sortedness, permutation and stability are proved below). -/
def sortedIndices (votes : List Nat) : List Nat :=
  rankSort votes (List.range votes.length)

/-- The winner check at the end of each round of `runVotingRound`: the
leader wins when `leaderVotes >= runnerUpVotes + k`, the runner-up votes
being `0` when only one candidate exists. -/
def checkWinner (k : Nat) (votes : List Nat) : Option Nat :=
  match sortedIndices votes with
  | [] => none
  | leaderIndex :: rest =>
    let leaderVotes := votes.getD leaderIndex 0
    let runnerUpVotes := match rest with
      | [] => 0
      | j :: _ => votes.getD j 0
    if runnerUpVotes + k ≤ leaderVotes then some leaderIndex else none

/-- The round loop of `runVotingRound`: each round processes the batch of
polled results and then checks for a winner, stopping early when one is
found.  The batches are the per-round lists of polled session results
(the source always runs `maxRounds = 10` rounds of `batchSize = 3`
sessions; a round in which every session failed contributes an empty or
all-failed batch). -/
def runRounds (k : Nat) : List (List IJulesTaskResult) → VState → VState × Option Nat
  | [], st => (st, none)
  | batch :: rest, st =>
    let st' := batch.foldl processResult st
    match checkWinner k st'.votes with
    | some i => (st', some i)
    | none => runRounds k rest st'

/-- The fixed batch size of `runVotingRound`. -/
def batchSize : Nat := 3

/-- The fixed maximum number of rounds of `runVotingRound`. -/
def maxRounds : Nat := 10

/-- Running the round loop from the empty state, as `runVotingRound` does. -/
def runVoting (k : Nat) (batches : List (List IJulesTaskResult)) :
    VState × Option Nat :=
  runRounds k batches emptyVState

/-- The argument passed to the HITL gate by `runVotingRound`: after the
loop, when no winner was found (`winnerIndex === -1`) and at least one
candidate exists, `askUserVeto(task, candidateList)` is invoked with the
candidate list; `none` means the gate is not invoked. -/
def gateCall (k : Nat) (batches : List (List IJulesTaskResult)) : Option (List Str) :=
  match runVoting k batches with
  | (st, none) => if st.candidateList.isEmpty then none else some st.candidateList
  | (_, some _) => none

/-- An option presented by the `ask_user` capability (label and
description), from `src/utils/hitl.ts`. -/
structure IAskUserOption where
  label : String
  description : Str
deriving DecidableEq, Repr

/-- The option list built by `askUserVeto`: one numbered option per
candidate (with the content, truncated to 97 characters plus an ellipsis
when longer than 100), followed by the explicit `Veto All` option. -/
def vetoOptions (candidates : List Str) : List IAskUserOption :=
  (candidates.enum.map (fun p =>
    { label := "Candidate " ++ toString (p.1 + 1),
      description := if 100 < p.2.length then p.2.take 97 ++ "...".data else p.2 })) ++
  [{ label := "Veto All",
     description := ("Reject all candidates and request a retry or manual intervention.").data }]

/-- Model of `askUserVeto` from `src/utils/hitl.ts`.  The response of the
ambient `ask_user` capability is modelled as `Option (List String)`
(`none` for a missing response or missing answers array).  The function
returns the selected candidate index, or `null` (here `none`) on veto,
empty response, unrecognised label, or an index outside the candidate
range. -/
def askUserVeto (candidates : List Str) (response : Option (List String)) : Option Nat :=
  let options := vetoOptions candidates
  match response with
  | none => none
  | some answers =>
    match answers with
    | [] => none
    | selectedLabel :: _ =>
      if selectedLabel = "Veto All" then none
      else
        match options.findIdx? (fun o => o.label == selectedLabel) with
        | none => none
        | some selectedIndex =>
          if selectedIndex < candidates.length then some selectedIndex else none

/-- Task status values of `IMakerTask.status`. -/
inductive Status where
  | pending
  | inProgress
  | completed
  | failed
deriving DecidableEq, Repr

/-- A task tree node (`IMakerTask`): identifier, description, status,
optional result, and — from the metadata bag — the recursion depth and
the `isMinimal` flag, plus the owned subtasks.  The remaining metadata
entries (repository name, stored candidates and vote counts) are carried
along by the source but never read by the logic under verification. -/
inductive Task where
  | mk (id : String) (description : Str) (status : Status) (result : Option Str)
      (depth : Nat) (isMinimalMeta : Bool) (subtasks : List Task)

/-- The identifier of a task. -/
def Task.id : Task → String
  | .mk i _ _ _ _ _ _ => i

/-- The description of a task. -/
def Task.description : Task → Str
  | .mk _ d _ _ _ _ _ => d

/-- The status of a task. -/
def Task.status : Task → Status
  | .mk _ _ s _ _ _ _ => s

/-- The result of a task. -/
def Task.result : Task → Option Str
  | .mk _ _ _ r _ _ _ => r

/-- The metadata depth of a task. -/
def Task.depth : Task → Nat
  | .mk _ _ _ _ dp _ _ => dp

/-- The metadata `isMinimal` flag of a task. -/
def Task.isMinimalMeta : Task → Bool
  | .mk _ _ _ _ _ m _ => m

/-- The subtasks of a task. -/
def Task.subtasks : Task → List Task
  | .mk _ _ _ _ _ _ subs => subs

mutual

/-- All nodes of a task tree in pre-order, as collected by the `traverse`
closure of `TaskTreeManager.calculateCompletion`. -/
def Task.allNodes : Task → List Task
  | .mk i d s r dp m subs => .mk i d s r dp m subs :: allNodesList subs

/-- Pre-order traversal of a forest of subtasks. -/
def allNodesList : List Task → List Task
  | [] => []
  | t :: ts => t.allNodes ++ allNodesList ts

end

mutual

/-- The number of nodes of a task tree, defined by direct structural
recursion (used to state completion correctness independently of the
list-based traversal of the source). -/
def Task.countNodes : Task → Nat
  | .mk _ _ _ _ _ _ subs => 1 + countNodesList subs

/-- The number of nodes of a forest. -/
def countNodesList : List Task → Nat
  | [] => 0
  | t :: ts => t.countNodes + countNodesList ts

end

mutual

/-- The number of `completed` nodes of a task tree, by direct structural
recursion. -/
def Task.countCompleted : Task → Nat
  | .mk _ _ s _ _ _ subs =>
    (if s = Status.completed then 1 else 0) + countCompletedList subs

/-- The number of `completed` nodes of a forest. -/
def countCompletedList : List Task → Nat
  | [] => 0
  | t :: ts => t.countCompleted + countCompletedList ts

end

/-- Model of `TaskTreeManager.calculateCompletion`: collect all nodes,
count the `completed` ones, and return `(completedCount / allTasks.length)
* 100` (a percentage).  JavaScript number division is modelled over `ℚ`;
the quantities involved are exact small integers, so no floating-point
rounding is lost in the claims below. -/
def calculateCompletion : Option Task → ℚ
  | none => 0
  | some root =>
    let allTasks := root.allNodes
    if allTasks.length = 0 then 0
    else
      let completedCount := (allTasks.filter (fun t => t.status == Status.completed)).length
      ((completedCount : ℚ) / (allTasks.length : ℚ)) * 100

/-- Terminal statuses of the orchestrator state machine
(`task.status === 'completed' || task.status === 'failed'`). -/
def isTerminal (s : Status) : Bool := s == Status.completed || s == Status.failed

/-- Outcome of one `runJulesTask` call as seen by `decomposeTask`: either
the call threw (timeout, launch error), or it returned a result record
with a status, an optional output and an optional error message. -/
inductive JulesOutcome where
  | launchError (message : String)
  | result (status : SessionStatus) (output : Option Str) (error : Option String)

/-- Result record of `decomposeTask` (`IDecompositionResult`). -/
structure IDecompositionResult where
  subtasks : List Str
  rationale : String
deriving DecidableEq, Repr

/-- Abstraction of the JSON value returned by `JSON.parse` on the
extracted block, restricted to the three fields the source reads:
whether `parsed.isMinimal === true`, `parsed.subtasks` when it is an
array, and `parsed.rationale` when it is a truthy string.  `JSON.parse`
itself is a platform primitive, not repository code, so it enters the
model as an oracle `Str → Except String ParsedDecomp` (the `String`
carrying the thrown parse-error message). -/
structure ParsedDecomp where
  isMinimalTrue : Bool
  subtasksArr : Option (List Str)
  rationale : Option String

/-- Model of the JSON block extraction `output.match(/\x7b[\s\S]*\x7d/)`:
the match, when it exists, runs from the leftmost opening brace to the
rightmost closing brace (the regex is greedy); there is a match exactly
when some closing brace occurs strictly after the leftmost opening
brace. -/
def extractJson (s : Str) : Option Str :=
  let fromBrace := s.dropWhile (fun c => c != obrace)
  match fromBrace with
  | [] => none
  | _ :: rest =>
    if rest.contains cbrace then
      some ((fromBrace.reverse.dropWhile (fun c => c != cbrace)).reverse)
    else none

/-- Model of `DecompositionAgent.parseDecompositionResponse`; thrown
errors are modelled with `Except`, and the `Bool` component records
whether the call set `task.metadata.isMinimal = true`. -/
def parseDecompositionResponse (jsonParse : Str → Except String ParsedDecomp)
    (output : Str) : Except String (IDecompositionResult × Bool) :=
  match extractJson output with
  | none => .error ("Failed to parse decomposition response: No JSON found in output")
  | some js =>
    match jsonParse js with
    | .error msg => .error ("Failed to parse decomposition response: " ++ msg)
    | .ok parsed =>
      if parsed.isMinimalTrue then
        .ok (⟨[], parsed.rationale.getD ("Task determined to be minimal.")⟩, true)
      else
        .ok (⟨parsed.subtasksArr.getD [], parsed.rationale.getD ("Decomposition successful.")⟩, false)

/-- The fixed three-step fallback decomposition used by `decomposeTask`
when the worker call or response parsing fails. -/
def fallbackDecomposition (desc : Str) (message : String) : IDecompositionResult :=
  { subtasks :=
      [ ("Step 1: Research and plan for \"").data ++ desc ++ ("\"").data,
        ("Step 2: Implement the core components of \"").data ++ desc ++ ("\"").data,
        ("Step 3: Test and verify \"").data ++ desc ++ ("\"").data ],
    rationale := "Fallback decomposition due to error: " ++ message }

/-- The decomposition prompt built by
`DecompositionAgent.constructDecompositionPrompt`. -/
def constructDecompositionPrompt (desc : Str) (maxRecursionDepth depth : Nat) : String :=
  "\nYou are a task decomposition agent in the MAKER framework.\nYour goal is to break down a complex task into 2-5 smaller, manageable subtasks.\n\nTask to decompose: \"" ++
  String.mk desc ++
  "\"\nCurrent recursion depth: " ++ toString depth ++
  "\nMax recursion depth: " ++ toString maxRecursionDepth ++
  "\n\nInstructions:\n1. Analyze the task and determine if it can be broken down into smaller, logical steps.\n2. If the task is simple enough to be executed directly (minimal), indicate this.\n3. Return your response ONLY as a valid JSON object with the following structure:\n\x7b\n  \"subtasks\": [\"subtask 1\", \"subtask 2\", ...],\n  \"rationale\": \"Explanation of the decomposition strategy\",\n  \"isMinimal\": true\n\x7d\n\nIf the task is NOT minimal, set \"isMinimal\" to false and provide subtasks.\nIf \"isMinimal\" is true, \"subtasks\" must be an empty array [].\nDo not include any other text, markdown formatting, or explanations outside the JSON object.\n"

/-- Model of `DecompositionAgent.decomposeTask` for a task at metadata
depth `depth` (the source reads `task.metadata?.depth || 0`; the
orchestrator always sets this field).  Returns the decomposition result
together with two flags: whether the worker was invoked at all, and
whether the call set the task's `isMinimal` metadata flag.  All failure
paths are caught by the source and converted to the fallback
decomposition, so the function is total. -/
def decomposeTaskAux (worker : String → JulesOutcome)
    (jsonParse : Str → Except String ParsedDecomp)
    (maxRecursionDepth : Nat) (depth : Nat) (desc : Str) :
    IDecompositionResult × Bool × Bool :=
  if maxRecursionDepth ≤ depth then
    (⟨[], "Maximum recursion depth reached."⟩, false, false)
  else
    match worker (constructDecompositionPrompt desc maxRecursionDepth depth) with
    | .launchError msg => (fallbackDecomposition desc msg, true, false)
    | .result status output errMsg =>
      if status = SessionStatus.failed then
        (fallbackDecomposition desc (errMsg.getD ("Jules task failed without error message")), true, false)
      else
        match parseDecompositionResponse jsonParse (output.getD []) with
        | .error msg => (fallbackDecomposition desc msg, true, false)
        | .ok (r, setMin) => (r, true, setMin)

/-- Word counting of `isMinimalTask`:
`task.description.trim().split(/\s+/).length`.  For an empty trimmed
string, JavaScript `split` yields `[""]`, of length 1. -/
def countWordsAux : Str → Bool → Nat
  | [], _ => 0
  | c :: rest, inWord =>
    if isJsSpace c then countWordsAux rest false
    else (if inWord then 0 else 1) + countWordsAux rest true

/-- The number of whitespace-separated words of a description. -/
def wordCount (desc : Str) : Nat :=
  let t := trimStr desc
  if t.isEmpty then 1 else countWordsAux t false

/-- Model of `DecompositionAgent.isMinimalTask`: minimal when explicitly
flagged; composite when it already has subtasks; otherwise minimal when
the description has at most 3 words. -/
def isMinimalTask (minFlag : Bool) (subtasks : List Task) (desc : Str) : Bool :=
  if minFlag then true
  else if !subtasks.isEmpty then false
  else wordCount desc ≤ 3

/-- Run configuration (`MakerConfig`); only the fields read by the logic
under verification are modelled (`redFlagSeverityThreshold` and
`modelName` are never read by the engine). -/
structure MakerConfig where
  maxRecursionDepth : Nat
  votingThreshold : Nat
deriving DecidableEq, Repr

/-- The external collaborators of the orchestrator, as oracles: the Jules
worker keyed by the full prompt, the `JSON.parse` primitive, the voting
engine outcome for a minimal task (the winning content, or `none` when
`winnerIndex === -1`; the voting engine itself is modelled above by
`runRounds`), and the random task-id source of `generateId` (a fixed
placeholder — no verified code reads identifiers of fresh children). -/
structure Oracles where
  worker : String → JulesOutcome
  jsonParse : Str → Except String ParsedDecomp
  vote : Str → Option Str
  freshId : String

/-- Oracles plus the configured recursion-depth ceiling. -/
structure OrchEnv extends Oracles where
  maxD : Nat

/-- The voting step of `processTask` for a (treated-as-)minimal task: the
task becomes `completed` with the winning content as result, or `failed`
with its result left unchanged. -/
def voteLeaf (env : OrchEnv) (id : String) (depth : Nat) (desc : Str)
    (minFlag : Bool) (result : Option Str) : Task :=
  match env.vote desc with
  | some content => .mk id desc .completed (some content) depth minFlag []
  | none => .mk id desc .failed result depth minFlag []

/-- The `'\n\n'`-join of the children's results
(`task.subtasks.map(st => st.result).join('\n\n')`; an `undefined`
result joins as the empty string). -/
def joinResults (subs : List Task) : Str :=
  List.intercalate (("\n\n").data) (subs.map (fun st => st.result.getD []))

/-- Model of `MakerOrchestrator.aggregateResults`: with no subtasks the
task is unchanged; if all children completed the task completes with the
joined results; else if any child failed the task fails; otherwise it is
left as it is. -/
def aggregateResults (t : Task) : Task :=
  match t with
  | .mk id desc status result depth minFlag subs =>
    if subs.isEmpty then .mk id desc status result depth minFlag subs
    else if subs.all (fun st => st.status == Status.completed) then
      .mk id desc .completed (some (joinResults subs)) depth minFlag subs
    else if subs.any (fun st => st.status == Status.failed) then
      .mk id desc .failed result depth minFlag subs
    else .mk id desc status result depth minFlag subs

/-- At or above the depth ceiling, `decomposeTask` returns no subtasks,
does not consult the worker, and does not set the minimality flag. -/
theorem decomposeTaskAux_of_le (worker : String → JulesOutcome)
    (jsonParse : Str → Except String ParsedDecomp) (maxD depth : Nat) (desc : Str)
    (h : maxD ≤ depth) :
    decomposeTaskAux worker jsonParse maxD depth desc =
      (⟨[], "Maximum recursion depth reached."⟩, false, false) := by
  simp [decomposeTaskAux, h]

/-- A decomposition that produced subtasks must have run below the depth
ceiling. -/
theorem lt_of_decomposeTaskAux_ne_nil {worker : String → JulesOutcome}
    {jsonParse : Str → Except String ParsedDecomp} {maxD depth : Nat} {desc : Str}
    (h : (decomposeTaskAux worker jsonParse maxD depth desc).1.subtasks ≠ []) :
    depth < maxD := by
  by_contra hc
  rw [Nat.not_lt] at hc
  rw [decomposeTaskAux_of_le _ _ _ _ _ hc] at h
  simp at h

/-- Model of `MakerOrchestrator.processTask` on a task without children.
In every reachable execution `processTask` is invoked on a childless
task: `runMaker` starts from a fresh root, the recursive calls are on
freshly created children, and `resumeProcess` only calls `processTask`
when the task has no subtasks.  A terminal task is returned unchanged; a
minimal task is voted on; otherwise the task is decomposed, fresh
children (at depth `depth + 1`) are attached and processed recursively,
and the results are aggregated; a decomposition with zero subtasks falls
back to voting (the task is treated as minimal). -/
def runTask (env : OrchEnv) (id : String) (depth : Nat) (desc : Str)
    (minFlag : Bool) (status : Status) (result : Option Str) : Task :=
  if isTerminal status then .mk id desc status result depth minFlag []
  else if isMinimalTask minFlag [] desc then voteLeaf env id depth desc minFlag result
  else
    let dr := decomposeTaskAux env.worker env.jsonParse env.maxD depth desc
    if _hdep : env.maxD ≤ depth then
      -- At the ceiling `decomposeTaskAux_of_le` forces `dr.1.subtasks = []`,
      -- so the source takes its zero-subtask branch and votes.
      voteLeaf env id depth desc (minFlag || dr.2.2) result
    else
      match dr.1.subtasks with
      | [] => voteLeaf env id depth desc (minFlag || dr.2.2) result
      | d0 :: ds =>
        let children :=
          (d0 :: ds).map (fun d => runTask env env.freshId (depth + 1) d false .pending none)
        aggregateResults (.mk id desc .inProgress result depth (minFlag || dr.2.2) children)
termination_by env.maxD - depth
decreasing_by omega

mutual

/-- Model of `MakerOrchestrator.resumeProcess`: terminal tasks are
skipped; a task with subtasks has its subtasks resumed and is then
re-aggregated; a childless non-terminal task re-enters `processTask`. -/
def resumeProcess (env : OrchEnv) : Task → Task
  | .mk id desc status result depth minFlag subs =>
    if isTerminal status then .mk id desc status result depth minFlag subs
    else if subs.isEmpty then runTask env id depth desc minFlag status result
    else aggregateResults (.mk id desc status result depth minFlag (resumeList env subs))

/-- Resumption of a forest of subtasks, in order. -/
def resumeList (env : OrchEnv) : List Task → List Task
  | [] => []
  | t :: ts => resumeProcess env t :: resumeList env ts

end

/-- Model of `MakerOrchestrator.resumeMaker`: loading a persisted state
whose root task or config is missing throws; otherwise the root is
resumed via `resumeProcess`. -/
def resumeMaker (os : Oracles) (rootTask : Option Task) (config : Option MakerConfig) :
    Except String Task :=
  match rootTask, config with
  | some root, some cfg => .ok (resumeProcess ⟨os, cfg.maxRecursionDepth⟩ root)
  | _, _ => .error ("No saved state found to resume.")

/-! Specification-side notions for the voting claims: the maximal vote
count of a tally, the earliest index attaining it, and the maximal vote
count among the other candidates (the runner-up count). -/

/-- The maximal vote count of a tally (`0` for an empty tally). -/
def maxVotes (votes : List Nat) : Nat := votes.foldr max 0

/-- The earliest candidate index attaining the maximal vote count. -/
def firstMaxIdx (votes : List Nat) : Nat :=
  votes.findIdx (fun v => v == maxVotes votes)

/-- The maximal vote count among candidates other than `i` (`0` when no
other candidate exists): the runner-up count relative to leader `i`. -/
def maxOtherVotes (votes : List Nat) (i : Nat) : Nat :=
  maxVotes (((List.range votes.length).filter (fun j => j != i)).map (fun j => votes.getD j 0))

theorem getD_le_maxVotes (votes : List Nat) (i : Nat) : votes.getD i 0 ≤ maxVotes votes := by
  induction votes generalizing i with
  | nil => simp [maxVotes]
  | cons a t ih =>
    cases i with
    | zero => simp [maxVotes, List.foldr_cons, Nat.le_max_left]
    | succ i =>
      calc (a :: t).getD (i + 1) 0 = t.getD i 0 := by simp [List.getD]
        _ ≤ maxVotes t := ih i
        _ ≤ maxVotes (a :: t) := by simp [maxVotes, List.foldr_cons, Nat.le_max_right]

theorem maxVotes_mem {votes : List Nat} (h : votes ≠ []) : maxVotes votes ∈ votes := by
  induction votes with
  | nil => simp at h
  | cons a t ih =>
    cases t with
    | nil => simp [maxVotes]
    | cons b t' =>
      rcases Nat.le_total (maxVotes (b :: t')) a with hle | hle
      · have : maxVotes (a :: b :: t') = a := by
          simp only [maxVotes, List.foldr_cons] at hle ⊢
          omega
        simp [this]
      · have : maxVotes (a :: b :: t') = maxVotes (b :: t') := by
          simp only [maxVotes, List.foldr_cons] at hle ⊢
          omega
        rw [this]
        exact List.mem_cons_of_mem a (ih (by simp))

theorem maxVotes_le {votes : List Nat} {B : Nat} (h : ∀ x ∈ votes, x ≤ B) :
    maxVotes votes ≤ B := by
  induction votes with
  | nil => simp [maxVotes]
  | cons a t ih =>
    simp only [maxVotes, List.foldr_cons]
    have ha : a ≤ B := h a (by simp)
    have ht : maxVotes t ≤ B := ih (fun x hx => h x (List.mem_cons_of_mem a hx))
    simp only [maxVotes] at ht
    omega

theorem firstMaxIdx_lt {votes : List Nat} (h : votes ≠ []) :
    firstMaxIdx votes < votes.length :=
  List.findIdx_lt_length_of_exists ⟨maxVotes votes, maxVotes_mem h, by simp⟩

theorem getD_firstMaxIdx {votes : List Nat} (h : votes ≠ []) :
    votes.getD (firstMaxIdx votes) 0 = maxVotes votes := by
  have hlt := firstMaxIdx_lt h
  have hp := @List.findIdx_getElem _ (fun v => v == maxVotes votes) votes
    (by simpa [firstMaxIdx] using hlt)
  rw [List.getD_eq_getElem votes 0 hlt]
  simpa [firstMaxIdx] using hp

theorem firstMaxIdx_le {votes : List Nat} {j : Nat} (hj : j < votes.length)
    (hv : votes.getD j 0 = maxVotes votes) : firstMaxIdx votes ≤ j := by
  by_contra hc
  rw [Nat.not_le] at hc
  have := List.not_of_lt_findIdx (p := fun v => v == maxVotes votes) hc
  rw [List.getD_eq_getElem votes 0 hj] at hv
  simp [hv] at this

theorem insertRanked_perm (votes : List Nat) (i : Nat) (l : List Nat) :
    List.Perm (insertRanked votes i l) (i :: l) := by
  induction l with
  | nil => exact List.Perm.refl _
  | cons y ys ih =>
    unfold insertRanked
    split
    · exact (ih.cons y).trans (List.Perm.swap i y ys)
    · exact List.Perm.refl _

theorem rankSort_perm (votes : List Nat) (l : List Nat) :
    List.Perm (rankSort votes l) l := by
  induction l with
  | nil => exact List.Perm.refl _
  | cons y ys ih => exact (insertRanked_perm votes y _).trans (ih.cons y)

theorem insertRanked_pairwise (votes : List Nat) {i : Nat} {l : List Nat}
    (h : l.Pairwise (fun a b => votes.getD b 0 ≤ votes.getD a 0)) :
    (insertRanked votes i l).Pairwise (fun a b => votes.getD b 0 ≤ votes.getD a 0) := by
  induction l with
  | nil => simp [insertRanked]
  | cons y ys ih =>
    rw [List.pairwise_cons] at h
    unfold insertRanked
    split
    case isTrue hlt =>
      rw [List.pairwise_cons]
      refine ⟨?_, ih h.2⟩
      intro z hz
      rcases List.mem_cons.mp ((insertRanked_perm votes i ys).mem_iff.mp hz) with rfl | hz'
      · exact Nat.le_of_lt hlt
      · exact h.1 z hz'
    case isFalse hge =>
      rw [Nat.not_lt] at hge
      rw [List.pairwise_cons]
      constructor
      · intro z hz
        rcases List.mem_cons.mp hz with rfl | hz'
        · exact hge
        · exact Nat.le_trans (h.1 z hz') hge
      · exact List.pairwise_cons.mpr h

theorem sublist_insertRanked (votes : List Nat) (i : Nat) (l : List Nat) :
    List.Sublist l (insertRanked votes i l) := by
  induction l with
  | nil => simp [insertRanked]
  | cons y ys ih =>
    unfold insertRanked
    split
    · exact List.Sublist.cons₂ y ih
    · exact List.Sublist.cons i (List.Sublist.refl _)

theorem pair_sublist_insertRanked (votes : List Nat) {i b : Nat} {l : List Nat}
    (hb : b ∈ l) (hv : votes.getD b 0 ≤ votes.getD i 0) :
    List.Sublist [i, b] (insertRanked votes i l) := by
  induction l with
  | nil => simp at hb
  | cons y ys ih =>
    unfold insertRanked
    split
    case isTrue hlt =>
      rcases List.mem_cons.mp hb with rfl | hb'
      · exact absurd (Nat.lt_of_le_of_lt hv hlt) (Nat.lt_irrefl _)
      · exact List.Sublist.cons y (ih hb')
    case isFalse hge =>
      exact List.Sublist.cons₂ i (List.singleton_sublist.mpr hb)

theorem pair_sublist_rankSort (votes : List Nat) {a b : Nat} {l : List Nat}
    (hab : List.Sublist [a, b] l) (hv : votes.getD b 0 ≤ votes.getD a 0) :
    List.Sublist [a, b] (rankSort votes l) := by
  induction l with
  | nil => cases hab
  | cons y ys ih =>
    unfold rankSort
    cases hab with
    | cons _ h' => exact (ih h').trans (sublist_insertRanked votes y _)
    | cons₂ _ h' =>
      have hbmem : b ∈ rankSort votes ys :=
        (rankSort_perm votes ys).mem_iff.mpr (List.singleton_sublist.mp h')
      exact pair_sublist_insertRanked votes hbmem hv

theorem sortedIndices_perm (votes : List Nat) :
    List.Perm (sortedIndices votes) (List.range votes.length) :=
  rankSort_perm _ _

theorem sortedIndices_length (votes : List Nat) :
    (sortedIndices votes).length = votes.length := by
  rw [(sortedIndices_perm votes).length_eq, List.length_range]

theorem sortedIndices_nodup (votes : List Nat) : (sortedIndices votes).Nodup :=
  ((sortedIndices_perm votes).nodup_iff).mpr (List.nodup_range _)

theorem mem_sortedIndices {votes : List Nat} {i : Nat} :
    i ∈ sortedIndices votes ↔ i < votes.length := by
  rw [(sortedIndices_perm votes).mem_iff, List.mem_range]

theorem rankSort_pairwise (votes : List Nat) (l : List Nat) :
    (rankSort votes l).Pairwise (fun a b => votes.getD b 0 ≤ votes.getD a 0) := by
  induction l with
  | nil => simp [rankSort]
  | cons y ys ih => exact insertRanked_pairwise votes ih

theorem sortedIndices_pairwise (votes : List Nat) :
    (sortedIndices votes).Pairwise (fun a b => votes.getD b 0 ≤ votes.getD a 0) :=
  rankSort_pairwise votes _

theorem pair_sublist_sortedIndices {votes : List Nat} {i j : Nat} (hij : i < j)
    (hj : j < votes.length) (hv : votes.getD j 0 ≤ votes.getD i 0) :
    List.Sublist [i, j] (sortedIndices votes) := by
  apply pair_sublist_rankSort votes ?_ hv
  have h1 : List.Sublist [i] (List.range j) :=
    List.singleton_sublist.mpr (List.mem_range.mpr hij)
  have h2 : List.Sublist ([i] ++ [j]) (List.range j ++ [j]) :=
    h1.append (List.Sublist.refl [j])
  rw [← List.range_succ] at h2
  exact h2.trans (List.range_sublist.mpr hj)

theorem head_sortedIndices {votes : List Nat} {hd : Nat} {tl : List Nat}
    (h : sortedIndices votes = hd :: tl) :
    hd = firstMaxIdx votes ∧ votes.getD hd 0 = maxVotes votes := by
  have hne : votes ≠ [] := by
    intro hnil
    rw [hnil] at h
    simp [sortedIndices, rankSort] at h
  have hmemhd : hd < votes.length := mem_sortedIndices.mp (h ▸ List.mem_cons_self hd tl)
  have hpw := sortedIndices_pairwise votes
  rw [h, List.pairwise_cons] at hpw
  have hmax : votes.getD hd 0 = maxVotes votes := by
    refine Nat.le_antisymm (getD_le_maxVotes votes hd) ?_
    obtain ⟨i0, hi0lt, hi0⟩ := List.mem_iff_getElem.mp (maxVotes_mem hne)
    have hi0mem : i0 ∈ hd :: tl := h ▸ mem_sortedIndices.mpr hi0lt
    rcases List.mem_cons.mp hi0mem with rfl | hi0tl
    · rw [List.getD_eq_getElem votes 0 hi0lt, hi0]
    · have := hpw.1 i0 hi0tl
      rw [List.getD_eq_getElem votes 0 hi0lt, hi0] at this
      exact this
  refine ⟨?_, hmax⟩
  obtain ⟨m, hm⟩ : ∃ m, firstMaxIdx votes = m := ⟨_, rfl⟩
  rw [hm]
  have hmlt : m < votes.length := hm ▸ firstMaxIdx_lt hne
  have hmval : votes.getD m 0 = maxVotes votes := hm ▸ getD_firstMaxIdx hne
  have hle : m ≤ hd := hm ▸ firstMaxIdx_le hmemhd hmax
  rcases Nat.lt_or_ge m hd with hlt | hge
  · exfalso
    have hsub : List.Sublist [m, hd] (sortedIndices votes) :=
      pair_sublist_sortedIndices hlt hmemhd (by rw [hmax, hmval])
    rw [h] at hsub
    have hnd := sortedIndices_nodup votes
    rw [h, List.nodup_cons] at hnd
    cases hsub with
    | cons _ hsub' => exact hnd.1 (hsub'.subset (by simp))
    | cons₂ _ hsub' => exact Nat.lt_irrefl _ hlt
  · omega

theorem checkWinner_eq_some {k : Nat} {votes : List Nat} {i : Nat}
    (h : checkWinner k votes = some i) :
    i = firstMaxIdx votes ∧ i < votes.length ∧
    votes.getD i 0 = maxVotes votes ∧
    maxOtherVotes votes i + k ≤ votes.getD i 0 := by
  unfold checkWinner at h
  cases hs : sortedIndices votes with
  | nil => rw [hs] at h; exact absurd h (by simp)
  | cons hd tl =>
    rw [hs] at h
    simp only at h
    split at h
    case isFalse => exact absurd h (by simp)
    case isTrue hguard =>
      obtain rfl : hd = i := by injection h
      obtain ⟨hfm, hmax⟩ := head_sortedIndices hs
      have hilt : hd < votes.length := mem_sortedIndices.mp (hs ▸ List.mem_cons_self hd tl)
      refine ⟨hfm, hilt, hmax, ?_⟩
      refine Nat.le_trans (Nat.add_le_add_right ?_ k) hguard
      apply maxVotes_le
      intro x hx
      simp only [List.mem_map, List.mem_filter, List.mem_range] at hx
      obtain ⟨j, ⟨hjlt, hji⟩, rfl⟩ := hx
      have hjne : j ≠ hd := by simpa using hji
      have hjmem : j ∈ hd :: tl := hs ▸ mem_sortedIndices.mpr hjlt
      have hjtl : j ∈ tl := by
        rcases List.mem_cons.mp hjmem with rfl | hjtl
        · exact absurd rfl hjne
        · exact hjtl
      cases tl with
      | nil => simp at hjtl
      | cons j0 tl' =>
        have hpw := sortedIndices_pairwise votes
        rw [hs, List.pairwise_cons] at hpw
        have hpw' := hpw.2
        rw [List.pairwise_cons] at hpw'
        rcases List.mem_cons.mp hjtl with rfl | hjtl'
        · exact Nat.le_refl _
        · exact hpw'.1 j hjtl'

/-! Concrete fixtures used by witnesses and counterexamples: two
well-formed candidate outputs (length at least 10, no forbidden phrase,
no code keyword, no error marker, a single line) and session results
carrying them. -/

/-- A well-formed candidate output. -/
def outA : Str := ("AAAAAAAAAAAA").data

/-- A second, distinct well-formed candidate output. -/
def outB : Str := ("BBBBBBBBBBBB").data

/-- A completed session producing `outA`. -/
def resA : IJulesTaskResult :=
  { sessionId := "session-a", status := .completed, output := some outA }

/-- A completed session producing `outB`. -/
def resB : IJulesTaskResult :=
  { sessionId := "session-b", status := .completed, output := some outB }

/-- Ten rounds (the source's `maxRounds`): one round tallying `A` once
and `B` twice, then nine rounds in which every session failed.  With
`k = 2` the final margin is `2 - 1 = 1 < k`, so no winner is declared. -/
def batchesC5 : List (List IJulesTaskResult) :=
  [resA, resB, resB] :: List.replicate 9 []

/-- A result returned by `askUserVeto` is an index into the candidate
list (shared helper for claims C5 and C10). -/
theorem askUserVeto_lt {cands : List Str} {resp : Option (List String)} {i : Nat}
    (h : askUserVeto cands resp = some i) : i < cands.length := by
  unfold askUserVeto at h
  cases resp with
  | none => simp at h
  | some answers =>
    cases answers with
    | nil => simp at h
    | cons lbl rest =>
      simp only at h
      split at h
      · exact absurd h (by simp)
      · split at h
        · exact absurd h (by simp)
        · rename_i idx heq
          split at h
          case isTrue hlt =>
            obtain rfl : idx = i := by injection h
            exact hlt
          case isFalse => exact absurd h (by simp)

/-- Claim C1: in the voting round loop with quorum margin
`k = votingThreshold`, a winner is declared in a round only when the
leader's vote count is at least the runner-up's vote count plus `k` (the
runner-up count taken as `0` when only one candidate exists), and a tally
whose leader-to-runner-up margin is exactly `k - 1` never ends a round
with a winner. -/
theorem C1_quorum_margin :
    (∀ (k : Nat) (batches : List (List IJulesTaskResult)) (st₀ st : VState) (w : Nat),
        runRounds k batches st₀ = (st, some w) →
        w < st.votes.length ∧ maxOtherVotes st.votes w + k ≤ st.votes.getD w 0) ∧
    (∀ (k : Nat) (votes : List Nat), 1 ≤ k → votes ≠ [] →
        maxVotes votes = maxOtherVotes votes (firstMaxIdx votes) + (k - 1) →
        checkWinner k votes = none) := by
  constructor
  · intro k batches
    induction batches with
    | nil =>
      intro st₀ st w hrun
      simp [runRounds] at hrun
    | cons batch rest ih =>
      intro st₀ st w hrun
      simp only [runRounds] at hrun
      split at hrun
      case h_1 i heq =>
        obtain ⟨rfl, rfl⟩ : batch.foldl processResult st₀ = st ∧ i = w :=
          ⟨congrArg Prod.fst hrun, by simpa using congrArg Prod.snd hrun⟩
        obtain ⟨-, hlt, -, hle⟩ := checkWinner_eq_some heq
        exact ⟨hlt, hle⟩
      case h_2 heq =>
        exact ih _ _ _ hrun
  · intro k votes hk hne hmargin
    cases hcw : checkWinner k votes with
    | none => rfl
    | some i =>
      exfalso
      obtain ⟨hfm, hlt, hmaxv, hle⟩ := checkWinner_eq_some hcw
      rw [← hfm] at hmargin
      rw [hmaxv] at hle
      omega

/-- Witness for C1: a single candidate with 3 votes wins against
threshold 2 with margin `3 ≥ 0 + 2`, and the two-candidate tally
`[2, 1]` with margin exactly `k - 1 = 1` produces no winner. -/
theorem C1_quorum_margin_witness :
    (0 < ((runRounds 2 [[resA, resA, resA]] emptyVState).1).votes.length ∧
      maxOtherVotes ((runRounds 2 [[resA, resA, resA]] emptyVState).1).votes 0 + 2 ≤
        ((runRounds 2 [[resA, resA, resA]] emptyVState).1).votes.getD 0 0) ∧
    checkWinner 2 [2, 1] = none :=
  ⟨C1_quorum_margin.1 2 [[resA, resA, resA]] emptyVState _ 0 (by decide),
   C1_quorum_margin.2 2 [2, 1] (by decide) (by decide) (by decide)⟩

/-- Claim C2: a red-flagged output — at any severity — is never
registered as a candidate and never increments any vote count or the
total vote count: processing such a result leaves the voting state
entirely unchanged. -/
theorem C2_redflag_exclusion :
    ∀ (st : VState) (r : IJulesTaskResult) (out : Str),
      r.output = some out → (checkRedFlags out).isRedFlagged = true →
      processResult st r = st := by
  intro st r out ho hflag
  obtain ⟨sid, status, output⟩ := r
  simp only [IJulesTaskResult.output] at ho
  subst ho
  cases status <;> simp [processResult, hflag]

/-- An output flagged only by the low-severity formatting rule. -/
def fmtOut : Str := ("Here is the code: const x = 10;").data

/-- Witness for C2, at the low-severity formatting rule. -/
theorem C2_redflag_exclusion_witness :
    (checkRedFlags fmtOut).isRedFlagged = true ∧
    (checkRedFlags fmtOut).severity = RedFlagSeverity.low ∧
    processResult emptyVState
      { sessionId := "s", status := .completed, output := some fmtOut } = emptyVState :=
  ⟨by decide, by decide,
   C2_redflag_exclusion emptyVState _ fmtOut rfl (by decide)⟩

/-- Claim C3: the per-round leader is the earliest-registered candidate
among those with the maximal vote count: the head of the sorted index
list is `firstMaxIdx`, which attains the maximum and is a lower bound of
every index attaining it — so ties are always resolved by earliest
insertion index, deterministically. -/
theorem C3_tie_insertion_order :
    ∀ votes : List Nat, votes ≠ [] →
      (sortedIndices votes).headD 0 = firstMaxIdx votes ∧
      votes.getD (firstMaxIdx votes) 0 = maxVotes votes ∧
      ∀ j, j < votes.length → votes.getD j 0 = maxVotes votes → firstMaxIdx votes ≤ j := by
  intro votes hne
  refine ⟨?_, getD_firstMaxIdx hne, fun j hj hv => firstMaxIdx_le hj hv⟩
  cases hs : sortedIndices votes with
  | nil =>
    have hlen := sortedIndices_length votes
    rw [hs] at hlen
    exact absurd (List.length_eq_zero.mp hlen.symm) hne
  | cons hd tl =>
    simpa using (head_sortedIndices hs).1

/-- Witness for C3: in the tied tally `[2, 2, 1]` the leader is
candidate 0, the earlier of the two tied candidates. -/
theorem C3_tie_insertion_order_witness :
    (sortedIndices [2, 2, 1]).headD 0 = firstMaxIdx [2, 2, 1] ∧
    firstMaxIdx [2, 2, 1] ≤ 1 :=
  ⟨(C3_tie_insertion_order [2, 2, 1] (by decide)).1,
   (C3_tie_insertion_order [2, 2, 1] (by decide)).2.2 1 (by decide) (by decide)⟩

/-- Claim C4, counterexample: the short-output rule of `checkRedFlags`
flags at severity `high`, not `critical`, so the claim's severity is
wrong at the two-character output `hi`. -/
theorem C4_short_severity_cex :
    (checkRedFlags (("hi").data)).isRedFlagged = true ∧
    (checkRedFlags (("hi").data)).severity = RedFlagSeverity.high ∧
    ¬ (checkRedFlags (("hi").data)).severity = RedFlagSeverity.critical := by
  exact ⟨by decide, by decide, by decide⟩

/-- Claim C4 as amended: an output whose trimmed length is less than 10
characters is flagged at severity `high` with the reason that the output
is too short to be a valid solution. -/
theorem C4_short_output_high :
    ∀ s : Str, (trimStr s).length < 10 →
      checkRedFlags s =
        { isRedFlagged := true, severity := RedFlagSeverity.high,
          reason := some ("Output is too short to be a valid solution."),
          suggestions := some [("Provide a more detailed explanation or implementation.")] } := by
  intro s h
  simp [checkRedFlags, h]

/-- Witness for the amended C4. -/
theorem C4_short_output_high_witness :
    checkRedFlags (("hi").data) =
      { isRedFlagged := true, severity := RedFlagSeverity.high,
        reason := some ("Output is too short to be a valid solution."),
        suggestions := some [("Provide a more detailed explanation or implementation.")] } :=
  C4_short_output_high _ (by decide)

/-- Claim C5, counterexample: after ten winnerless rounds the gate is
invoked with the candidate list in insertion order — here `[A, B]` with
vote counts `[1, 2]`, which is not ordered by vote count descending. -/
theorem C5_gate_order_cex :
    gateCall 2 batchesC5 = some ((runVoting 2 batchesC5).1.candidateList) ∧
    (runVoting 2 batchesC5).1.candidateList = [outA, outB] ∧
    (runVoting 2 batchesC5).1.votes = [1, 2] ∧
    ¬ List.Pairwise (fun a b => b ≤ a) ((runVoting 2 batchesC5).1.votes) :=
  ⟨by decide, by decide, by decide, by decide⟩

/-- Claim C5 as amended: whenever the round loop ends without a winner
and at least one candidate was tallied, the escalation gate is invoked
with the full candidate list in first-seen insertion order (not sorted by
votes) plus an explicit `Veto All` option, and the gate returns either a
zero-based index into that candidate list or `null`. -/
theorem C5_gate_insertion_order :
    ∀ (k : Nat) (batches : List (List IJulesTaskResult)) (st : VState),
      runVoting k batches = (st, none) → st.candidateList ≠ [] →
      gateCall k batches = some st.candidateList ∧
      (vetoOptions st.candidateList).length = st.candidateList.length + 1 ∧
      ((vetoOptions st.candidateList).getLast?).map IAskUserOption.label = some ("Veto All") ∧
      (∀ (resp : Option (List String)) (i : Nat),
        askUserVeto st.candidateList resp = some i → i < st.candidateList.length) := by
  intro k batches st hrun hne
  refine ⟨?_, ?_, ?_, fun resp i h => askUserVeto_lt h⟩
  · unfold gateCall
    rw [hrun]
    cases hcl : st.candidateList with
    | nil => exact absurd hcl hne
    | cons c cs => simp [hcl]
  · simp [vetoOptions, List.enum_length]
  · simp [vetoOptions, List.getLast?_concat]

/-- Witness for the amended C5, at the ten-round winnerless execution. -/
theorem C5_gate_insertion_order_witness :
    gateCall 2 batchesC5 = some ((runVoting 2 batchesC5).1.candidateList) :=
  (C5_gate_insertion_order 2 batchesC5 (runVoting 2 batchesC5).1
    (by decide) (by decide)).1

mutual

theorem length_allNodes (t : Task) : t.allNodes.length = t.countNodes := by
  cases t with
  | mk i d s r dp m subs =>
    simp only [Task.allNodes, Task.countNodes, List.length_cons,
      length_allNodesList subs]
    omega

theorem length_allNodesList (ts : List Task) :
    (allNodesList ts).length = countNodesList ts := by
  cases ts with
  | nil => simp [allNodesList, countNodesList]
  | cons t ts' =>
    simp only [allNodesList, countNodesList, List.length_append,
      length_allNodes t, length_allNodesList ts']

end

mutual

theorem filterCompleted_allNodes (t : Task) :
    (t.allNodes.filter (fun n => n.status == Status.completed)).length =
      t.countCompleted := by
  cases t with
  | mk i d s r dp m subs =>
    have hstat : (Task.mk i d s r dp m subs).status = s := rfl
    simp only [Task.allNodes, Task.countCompleted, List.filter_cons, hstat]
    by_cases hs : s = Status.completed
    · simp only [hs, beq_self_eq_true, if_true, List.length_cons,
        filterCompleted_allNodesList subs]
      omega
    · simp only [beq_iff_eq, hs, if_false, filterCompleted_allNodesList subs]
      omega

theorem filterCompleted_allNodesList (ts : List Task) :
    ((allNodesList ts).filter (fun n => n.status == Status.completed)).length =
      countCompletedList ts := by
  cases ts with
  | nil => simp [allNodesList, countCompletedList]
  | cons t ts' =>
    simp only [allNodesList, countCompletedList, List.filter_append,
      List.length_append, filterCompleted_allNodes t,
      filterCompleted_allNodesList ts']

end

theorem countNodes_pos (t : Task) : 1 ≤ t.countNodes := by
  cases t with
  | mk i d s r dp m subs =>
    simp only [Task.countNodes]
    omega

/-- The task tree used against claim C6: the 2-of-3-completed tree of the
repository's own test suite. -/
def treeC6 : Task :=
  Task.mk ("root") (("root").data) .completed none 0 false
    [ Task.mk ("sub1") (("sub1").data) .completed none 1 false [],
      Task.mk ("sub2") (("sub2").data) .pending none 1 false [] ]

/-- Claim C6, counterexample: on a tree with 2 completed nodes out of 3,
`calculateCompletion` returns the percentage `200/3 ≈ 66.67`, not the
ratio `2/3` the claim states. -/
theorem C6_completion_ratio_cex :
    calculateCompletion (some treeC6) = 200 / 3 ∧
    ¬ calculateCompletion (some treeC6) = 2 / 3 := by
  have h1 := length_allNodes treeC6
  have h2 := filterCompleted_allNodes treeC6
  have hcc : treeC6.countCompleted = 2 := by
    simp [treeC6, Task.countCompleted, countCompletedList]
  have hcn : treeC6.countNodes = 3 := by
    simp [treeC6, Task.countNodes, countNodesList]
  rw [hcc] at h2
  rw [hcn] at h1
  constructor <;> simp only [calculateCompletion, h1, h2] <;> norm_num

/-- Claim C6 as amended: the completion computation returns the
percentage `(count(completed) / count(all nodes)) * 100` — the claimed
ratio scaled by 100 — and `0` for a null tree. -/
theorem C6_completion_percentage :
    (∀ root : Task,
      calculateCompletion (some root) =
        ((root.countCompleted : ℚ) / (root.countNodes : ℚ)) * 100) ∧
    calculateCompletion none = 0 := by
  constructor
  · intro root
    have h1 := length_allNodes root
    have h2 := filterCompleted_allNodes root
    have h3 := countNodes_pos root
    simp only [calculateCompletion, h1, h2]
    have hne : ¬ root.countNodes = 0 := by omega
    simp [hne]
  · rfl

theorem mem_allNodesList {n : Task} : ∀ {ts : List Task},
    n ∈ allNodesList ts ↔ ∃ t ∈ ts, n ∈ t.allNodes := by
  intro ts
  induction ts with
  | nil => simp [allNodesList]
  | cons t ts' ih =>
    simp [allNodesList, List.mem_append, ih]

theorem aggregateResults_shape (id : String) (desc : Str) (status : Status)
    (result : Option Str) (depth : Nat) (minFlag : Bool) (subs : List Task) :
    ∃ s' r', aggregateResults (.mk id desc status result depth minFlag subs) =
      .mk id desc s' r' depth minFlag subs := by
  simp only [aggregateResults]
  split_ifs <;> exact ⟨_, _, rfl⟩

theorem voteLeaf_shape (env : OrchEnv) (id : String) (depth : Nat) (desc : Str)
    (minFlag : Bool) (result : Option Str) :
    ∃ s' r', voteLeaf env id depth desc minFlag result =
      .mk id desc s' r' depth minFlag [] := by
  unfold voteLeaf
  cases env.vote desc <;> exact ⟨_, _, rfl⟩

/-- Every node of the tree produced by the orchestrator walk has depth at
most the larger of the start depth and the depth ceiling. -/
theorem runTask_depth_le (env : OrchEnv) (id : String) (depth : Nat) (desc : Str)
    (minFlag : Bool) (status : Status) (result : Option Str) :
    ∀ n ∈ (runTask env id depth desc minFlag status result).allNodes,
      n.depth ≤ max depth env.maxD := by
  induction id, depth, desc, minFlag, status, result using runTask.induct env with
  | case1 id depth desc minFlag status result hterm =>
    intro n hn
    rw [runTask, if_pos hterm] at hn
    rcases List.mem_cons.mp hn with rfl | hn'
    · simp [Task.depth, Nat.le_max_left]
    · simp only [show allNodesList [] = [] from rfl] at hn'
      simp at hn'
  | case2 id depth desc minFlag status result hterm hmin =>
    intro n hn
    rw [runTask, if_neg hterm, if_pos hmin] at hn
    obtain ⟨s', r', hshape⟩ := voteLeaf_shape env id depth desc minFlag result
    rw [hshape] at hn
    rcases List.mem_cons.mp hn with rfl | hn'
    · simp [Task.depth, Nat.le_max_left]
    · simp only [show allNodesList [] = [] from rfl] at hn'
      simp at hn'
  | case3 id depth desc minFlag status result hterm hmin hdep =>
    intro n hn
    rw [runTask, if_neg hterm, if_neg hmin, dif_pos hdep] at hn
    obtain ⟨s', r', hshape⟩ := voteLeaf_shape env id depth desc
      (minFlag || (decomposeTaskAux env.worker env.jsonParse env.maxD depth desc).2.2) result
    rw [hshape] at hn
    rcases List.mem_cons.mp hn with rfl | hn'
    · simp [Task.depth, Nat.le_max_left]
    · simp only [show allNodesList [] = [] from rfl] at hn'
      simp at hn'
  | case4 id depth desc minFlag status result hterm hmin dr hdep hnil =>
    intro n hn
    have hdr : dr = decomposeTaskAux env.worker env.jsonParse env.maxD depth desc := rfl
    rw [hdr] at hnil
    rw [runTask, if_neg hterm, if_neg hmin, dif_neg hdep, hnil] at hn
    obtain ⟨s', r', hshape⟩ := voteLeaf_shape env id depth desc
      (minFlag || (decomposeTaskAux env.worker env.jsonParse env.maxD depth desc).2.2) result
    rw [show (match ([] : List Str) with
        | [] => voteLeaf env id depth desc
            (minFlag || (decomposeTaskAux env.worker env.jsonParse env.maxD depth desc).2.2) result
        | d0 :: ds =>
          aggregateResults (.mk id desc .inProgress result depth
            (minFlag || (decomposeTaskAux env.worker env.jsonParse env.maxD depth desc).2.2)
            ((d0 :: ds).map (fun d => runTask env env.freshId (depth + 1) d false .pending none)))) =
      voteLeaf env id depth desc
        (minFlag || (decomposeTaskAux env.worker env.jsonParse env.maxD depth desc).2.2) result
      from rfl, hshape] at hn
    rcases List.mem_cons.mp hn with rfl | hn'
    · simp [Task.depth, Nat.le_max_left]
    · simp only [show allNodesList [] = [] from rfl] at hn'
      simp at hn'
  | case5 id depth desc minFlag status result hterm hmin dr hdep d0 ds hcons ih =>
    intro n hn
    have hdr : dr = decomposeTaskAux env.worker env.jsonParse env.maxD depth desc := rfl
    rw [hdr] at hcons
    rw [runTask, if_neg hterm, if_neg hmin, dif_neg hdep, hcons] at hn
    obtain ⟨s', r', hshape⟩ := aggregateResults_shape id desc .inProgress result depth
      (minFlag || (decomposeTaskAux env.worker env.jsonParse env.maxD depth desc).2.2)
      ((d0 :: ds).map (fun d => runTask env env.freshId (depth + 1) d false .pending none))
    have hn2 : n ∈ (aggregateResults (.mk id desc .inProgress result depth
        (minFlag || (decomposeTaskAux env.worker env.jsonParse env.maxD depth desc).2.2)
        ((d0 :: ds).map (fun d => runTask env env.freshId (depth + 1) d false .pending none)))).allNodes := hn
    rw [hshape] at hn2
    rcases List.mem_cons.mp hn2 with rfl | hn'
    · simp [Task.depth, Nat.le_max_left]
    · obtain ⟨c, hc, hnc⟩ := mem_allNodesList.mp hn'
      obtain ⟨d, hd, rfl⟩ := List.mem_map.mp hc
      have := ih d n hnc
      rw [Nat.not_le] at hdep
      omega

/-- A fully terminal snapshot tree. -/
def termTree : Task :=
  Task.mk ("root") (("r").data) .completed (some outA) 0 false
    [Task.mk ("c1") (("c").data) .failed none 1 false []]

/-- A fixed set of collaborator oracles for concrete orchestrator runs. -/
def osW : Oracles :=
  { worker := fun _ => JulesOutcome.launchError ("boom"),
    jsonParse := fun _ => Except.error ("bad"),
    vote := fun _ => some outA,
    freshId := "task-w" }

/-- Oracles with a depth ceiling of 1. -/
def envW : OrchEnv := { toOracles := osW, maxD := 1 }

/-- A four-word (hence non-minimal) description. -/
def descW : Str := ("alpha beta gamma delta").data

/-- Claim C7: at or above the depth ceiling, decomposition returns zero
subtasks without invoking the worker; the orchestrator then treats the
node as minimal and votes on it; and — since children are created at
`depth + 1` and only below the ceiling — the recursive walk (a total
function here, which is the termination claim) never creates a node of
depth exceeding `maxRecursionDepth` when started at the root.  The third
conjunct states the bound over all nodes of the resulting tree. -/
theorem C7_depth_ceiling :
    (∀ (worker : String → JulesOutcome) (jsonParse : Str → Except String ParsedDecomp)
        (maxD depth : Nat) (desc : Str), maxD ≤ depth →
        decomposeTaskAux worker jsonParse maxD depth desc =
          (⟨[], "Maximum recursion depth reached."⟩, false, false)) ∧
    (∀ (env : OrchEnv) (id : String) (depth : Nat) (desc : Str) (minFlag : Bool)
        (result : Option Str), env.maxD ≤ depth →
        runTask env id depth desc minFlag .pending result =
          voteLeaf env id depth desc minFlag result) ∧
    (∀ (env : OrchEnv) (id : String) (desc : Str) (minFlag : Bool) (status : Status)
        (result : Option Str),
        ((runTask env id 0 desc minFlag status result).allNodes.all
          (fun n => decide (n.depth ≤ env.maxD))) = true) := by
  refine ⟨fun w jp maxD depth desc h => decomposeTaskAux_of_le w jp maxD depth desc h, ?_, ?_⟩
  · intro env id depth desc minFlag result hdep
    rw [runTask]
    simp only [show isTerminal .pending = false from rfl, Bool.false_eq_true, if_false]
    split
    · rfl
    · simp [hdep, decomposeTaskAux_of_le _ _ _ _ _ hdep]
  · intro env id desc minFlag status result
    rw [List.all_eq_true]
    intro n hn
    rw [decide_eq_true_eq]
    have h := runTask_depth_le env id 0 desc minFlag status result n hn
    omega

/-- Witness for C7 (first and second conjuncts at a concrete ceiling). -/
theorem C7_depth_ceiling_witness :
    decomposeTaskAux envW.worker envW.jsonParse envW.maxD 1 descW =
      (⟨[], "Maximum recursion depth reached."⟩, false, false) ∧
    runTask envW ("r") 1 descW false .pending none =
      voteLeaf envW ("r") 1 descW false none := by
  have hle : envW.maxD ≤ 1 := by decide
  exact ⟨C7_depth_ceiling.1 envW.worker envW.jsonParse envW.maxD 1 descW hle,
         C7_depth_ceiling.2.1 envW ("r") 1 descW false none hle⟩

/-- Claim C8: below the depth ceiling, every failure of the worker call
or of response parsing is absorbed — `decomposeTask` returns (it does not
throw: it is a total function here) exactly the fixed three-step fallback
subtasks, with the failure reason recorded in the rationale. -/
theorem C8_decomposition_fallback :
    ∀ (worker : String → JulesOutcome) (jsonParse : Str → Except String ParsedDecomp)
      (maxD depth : Nat) (desc : Str), depth < maxD →
      ((∀ msg, worker (constructDecompositionPrompt desc maxD depth) = .launchError msg →
          decomposeTaskAux worker jsonParse maxD depth desc =
            (fallbackDecomposition desc msg, true, false)) ∧
       (∀ (output : Option Str) (errMsg : Option String),
          worker (constructDecompositionPrompt desc maxD depth) = .result .failed output errMsg →
          decomposeTaskAux worker jsonParse maxD depth desc =
            (fallbackDecomposition desc
              (errMsg.getD ("Jules task failed without error message")), true, false)) ∧
       (∀ (status : SessionStatus) (output : Option Str) (errMsg : Option String),
          worker (constructDecompositionPrompt desc maxD depth) = .result status output errMsg →
          status ≠ .failed → extractJson (output.getD []) = none →
          decomposeTaskAux worker jsonParse maxD depth desc =
            (fallbackDecomposition desc
              ("Failed to parse decomposition response: No JSON found in output"), true, false)) ∧
       (∀ (status : SessionStatus) (output : Option Str) (errMsg : Option String)
          (js : Str) (emsg : String),
          worker (constructDecompositionPrompt desc maxD depth) = .result status output errMsg →
          status ≠ .failed → extractJson (output.getD []) = some js →
          jsonParse js = .error emsg →
          decomposeTaskAux worker jsonParse maxD depth desc =
            (fallbackDecomposition desc
              ("Failed to parse decomposition response: " ++ emsg), true, false)) ∧
       (∀ msg : String,
          (fallbackDecomposition desc msg).subtasks =
            [ ("Step 1: Research and plan for \"").data ++ desc ++ ("\"").data,
              ("Step 2: Implement the core components of \"").data ++ desc ++ ("\"").data,
              ("Step 3: Test and verify \"").data ++ desc ++ ("\"").data ] ∧
          (fallbackDecomposition desc msg).rationale =
            "Fallback decomposition due to error: " ++ msg)) := by
  intro worker jsonParse maxD depth desc hlt
  have hnle : ¬ maxD ≤ depth := Nat.not_le.mpr hlt
  refine ⟨?_, ?_, ?_, ?_, fun msg => ⟨rfl, rfl⟩⟩
  · intro msg hw
    simp [decomposeTaskAux, hnle, hw]
  · intro output errMsg hw
    simp [decomposeTaskAux, hnle, hw]
  · intro status output errMsg hw hsf hext
    simp [decomposeTaskAux, hnle, hw, hsf, parseDecompositionResponse, hext]
  · intro status output errMsg js emsg hw hsf hext hjp
    simp [decomposeTaskAux, hnle, hw, hsf, parseDecompositionResponse, hext, hjp]

/-- Witness for C8: a worker launch failure below the ceiling yields the
three-step fallback with the failure reason in the rationale. -/
theorem C8_decomposition_fallback_witness :
    decomposeTaskAux (fun _ => JulesOutcome.launchError ("boom"))
        (fun _ => Except.error ("bad")) 3 0 (("build the whole app").data) =
      (fallbackDecomposition (("build the whole app").data) ("boom"), true, false) :=
  (C8_decomposition_fallback (fun _ => JulesOutcome.launchError ("boom"))
      (fun _ => Except.error ("bad")) 3 0 (("build the whole app").data)
      (by decide)).1 ("boom") rfl

/-- Claim C9: resuming a snapshot (non-null root and config) in which
every node is terminal mutates nothing and returns the same root. -/
theorem C9_idempotent_resume :
    ∀ (os : Oracles) (env : OrchEnv) (root : Task) (cfg : MakerConfig),
      (root.allNodes.all (fun n => isTerminal n.status)) = true →
      resumeProcess env root = root ∧
      resumeMaker os (some root) (some cfg) = .ok root := by
  intro os env root cfg hall
  have hres : ∀ env' : OrchEnv, resumeProcess env' root = root := by
    intro env'
    obtain ⟨i, d, s, r, dp, m, subs⟩ := root
    simp only [Task.allNodes, List.all_cons, Bool.and_eq_true, Task.status] at hall
    simp [resumeProcess, hall.1]
  exact ⟨hres env, by simp [resumeMaker, hres]⟩

/-- Witness for C9 at a concrete terminal snapshot. -/
theorem C9_idempotent_resume_witness :
    resumeProcess envW termTree = termTree ∧
    resumeMaker osW (some termTree) (some ⟨3, 2⟩) = .ok termTree :=
  C9_idempotent_resume osW envW termTree ⟨3, 2⟩ (by decide)

/-- Claim C10: `askUserVeto` returns `null` or an index of a real
candidate: a `some i` result satisfies `i < candidates.length`, and the
`Veto All` option, a missing response, an empty answer list, and any
unrecognised answer label all yield `null`. -/
theorem C10_veto_result_range :
    (∀ (cands : List Str) (resp : Option (List String)) (i : Nat),
        askUserVeto cands resp = some i → i < cands.length) ∧
    (∀ cands : List Str, askUserVeto cands none = none) ∧
    (∀ cands : List Str, askUserVeto cands (some []) = none) ∧
    (∀ (cands : List Str) (rest : List String),
        askUserVeto cands (some (("Veto All") :: rest)) = none) ∧
    (∀ (cands : List Str) (lbl : String) (rest : List String),
        (∀ o ∈ vetoOptions cands, o.label ≠ lbl) →
        askUserVeto cands (some (lbl :: rest)) = none) := by
  refine ⟨fun _ _ _ h => askUserVeto_lt h, fun cands => rfl, fun cands => rfl, ?_, ?_⟩
  · intro cands rest
    simp [askUserVeto]
  · intro cands lbl rest hno
    unfold askUserVeto
    simp only
    split
    · rfl
    · have hnone : (vetoOptions cands).findIdx? (fun o => o.label == lbl) = none := by
        rw [List.findIdx?_eq_none_iff]
        intro o ho
        simpa using hno o ho
      rw [hnone]

/-- Witness for C10: selecting `Candidate 1` among one candidate yields
index 0, in bounds. -/
theorem C10_veto_result_range_witness :
    askUserVeto [outA] (some [("Candidate 1")]) = some 0 ∧ 0 < [outA].length :=
  ⟨by decide,
   C10_veto_result_range.1 [outA] (some [("Candidate 1")]) 0 (by decide)⟩

end Maker
